import Mathlib

/-!
Shallow embedding of the data-extraction and aggregation pipeline of the
Zwijntje Hall of Fame repository (`scripts/extract-data.js`), together with the
category-key table of the presentation layer (`src/scripts/main.js`).
Strings are modelled as Lean `String` (a list of characters); fallible code
returns `Option`/`Except`; the callback-style retry loop of the fetcher is
modelled as a function over a scripted list of network events.
-/

namespace ZwijntjeHOF

/-- Character class of the JavaScript regex `\s` (also used by
`String.prototype.trim`): ASCII whitespace, NBSP, and the Unicode
space separators / line breaks / BOM. -/
def isJsWhitespace (c : Char) : Bool :=
  let n := c.toNat
  n == 0x20 || n == 0x09 || n == 0x0a || n == 0x0b || n == 0x0c || n == 0x0d ||
  n == 0xa0 || n == 0x1680 || (0x2000 ≤ n && n ≤ 0x200a) ||
  n == 0x2028 || n == 0x2029 || n == 0x202f || n == 0x205f || n == 0x3000 || n == 0xfeff

/-- One character of `String.prototype.toLowerCase`, restricted to the Basic
Latin and Latin-1 letters (the alphabet of the scraped names): `A`-`Z` and the
accented capitals `À`-`Þ` (except `×`) map down by `0x20`; every other
character is left unchanged. -/
def jsLowerChar (c : Char) : Char :=
  let n := c.toNat
  if 0x41 ≤ n && n ≤ 0x5a then Char.ofNat (n + 0x20)
  else if 0xc0 ≤ n && n ≤ 0xde && n != 0xd7 then Char.ofNat (n + 0x20)
  else c

/-- The seven accent-folding replacements of `normalizeName`
(`[éèêë]→e`, `[áàâä]→a`, `[íìîï]→i`, `[óòôö]→o`, `[úùûü]→u`, `ç→c`, `ñ→n`);
they are applied to the already lower-cased string, so only lower-case
accented characters occur in the patterns. -/
def foldAccentChar (c : Char) : Char :=
  match c with
  | 'é' | 'è' | 'ê' | 'ë' => 'e'
  | 'á' | 'à' | 'â' | 'ä' => 'a'
  | 'í' | 'ì' | 'î' | 'ï' => 'i'
  | 'ó' | 'ò' | 'ô' | 'ö' => 'o'
  | 'ú' | 'ù' | 'û' | 'ü' => 'u'
  | 'ç' => 'c'
  | 'ñ' => 'n'
  | _ => c

/-- `String.prototype.trim` on the character list: drop leading and trailing
`\s` characters. -/
def trimChars (l : List Char) : List Char :=
  ((l.dropWhile isJsWhitespace).reverse.dropWhile isJsWhitespace).reverse

/-- The final `.replace(/\s+/g, ' ')` of `normalizeName`: every maximal run of
whitespace characters becomes a single space. -/
def collapseWhitespace : List Char → List Char
  | [] => []
  | [c] => if isJsWhitespace c then [' '] else [c]
  | c :: d :: rest =>
    if isJsWhitespace c && isJsWhitespace d then collapseWhitespace (d :: rest)
    else (if isJsWhitespace c then ' ' else c) :: collapseWhitespace (d :: rest)

/-- `String.prototype.trim` at the `String` level. -/
def trimString (s : String) : String := String.mk (trimChars s.data)

/-- `normalizeName` from `scripts/extract-data.js`: lower-case, trim, fold the
listed accented characters to their ASCII base, collapse whitespace runs to a
single space (in exactly the source's order of operations). -/
def normalizeName (s : String) : String :=
  String.mk (collapseWhitespace ((trimChars (s.data.map jsLowerChar)).map foldAccentChar))

/-- `NAME_MAPPINGS` from `scripts/extract-data.js`: normalized variant →
canonical display name. -/
def NAME_MAPPINGS : List (String × String) :=
  [("anette van velzen", "Anette Boluijt"),
   ("vikas arumugan", "Vikas Arumugam"),
   ("roy derksen", "Roy Derks"),
   ("jan van de bosch", "Jan van den Bosch"),
   ("chantal kamphuis", "Chantal Brinks-Kamphuis"),
   ("bert jan rietveld", "Bert-Jan Rietveld")]

/-- `applyNameMapping` from `scripts/extract-data.js`: look the normalized name
up in `NAME_MAPPINGS`; if present return the mapped canonical name, otherwise
the name unchanged. -/
def applyNameMapping (name : String) : String :=
  match List.lookup (normalizeName name) NAME_MAPPINGS with
  | some canonical => canonical
  | none => name

/-- Prepend a character to the first fragment of a split result (the fragment
currently being scanned). -/
def consHead (c : Char) : List (List Char) → List (List Char)
  | [] => [[c]]
  | h :: t => (c :: h) :: t

/-- Lookahead for the `\sen\s` alternative of the split regex: after a
whitespace character, a literal `en` followed by one more whitespace character
completes a match; returns the remainder after the consumed match. -/
def enBoundary : List Char → Option (List Char)
  | 'e' :: 'n' :: d :: rest2 => if isJsWhitespace d then some rest2 else none
  | _ => none

/-- One scanning step of the split (see `splitNameTokens`). -/
def splitNameTokensAux : Nat → List Char → List (List Char)
  | 0, l => [l]
  | _ + 1, [] => [[]]
  | fuel + 1, c :: rest =>
    if c = ',' then [] :: splitNameTokensAux fuel rest
    else if isJsWhitespace c then
      match enBoundary rest with
      | some rest2 => [] :: splitNameTokensAux fuel rest2
      | none => consHead c (splitNameTokensAux fuel rest)
    else consHead c (splitNameTokensAux fuel rest)

/-- The JavaScript `text.split(/,|\sen\s/)` of `extractNames`: scanning left
to right, a `,` or a whitespace-`en`-whitespace run ends the current fragment
and is consumed; every other character is kept in the current fragment. The
`fuel` argument of the auxiliary only makes the recursion structural (each
step consumes at least one character, so fuel `l.length` is never
exhausted). -/
def splitNameTokens (l : List Char) : List (List Char) := splitNameTokensAux l.length l

/-- `extractNames` from `scripts/extract-data.js`: empty, dash (`–`/`-`) or
whitespace-only cells give no names; otherwise split on `,` or the word `en`
surrounded by whitespace, trim each fragment, and drop fragments that are
empty or a dash. -/
def extractNames (text : String) : List String :=
  if text = "" || text = "–" || text = "-" || trimString text = "" then []
  else
    ((splitNameTokens text.data).map (fun f => String.mk (trimChars f))).filter
      (fun name => name != "" && name != "–" && name != "-")

/-- `countDiacritics` from `scripts/extract-data.js`: the number of characters
matching `/[éèêëáàâäíìîïóòôöúùûüçñ]/gi` (the case-insensitive flag also matches
the accented capitals). -/
def isDiacriticChar (c : Char) : Bool :=
  c = 'é' || c = 'è' || c = 'ê' || c = 'ë' || c = 'á' || c = 'à' || c = 'â' || c = 'ä' ||
  c = 'í' || c = 'ì' || c = 'î' || c = 'ï' || c = 'ó' || c = 'ò' || c = 'ô' || c = 'ö' ||
  c = 'ú' || c = 'ù' || c = 'û' || c = 'ü' || c = 'ç' || c = 'ñ' ||
  c = 'É' || c = 'È' || c = 'Ê' || c = 'Ë' || c = 'Á' || c = 'À' || c = 'Â' || c = 'Ä' ||
  c = 'Í' || c = 'Ì' || c = 'Î' || c = 'Ï' || c = 'Ó' || c = 'Ò' || c = 'Ô' || c = 'Ö' ||
  c = 'Ú' || c = 'Ù' || c = 'Û' || c = 'Ü' || c = 'Ç' || c = 'Ñ'

/-- `countDiacritics` from `scripts/extract-data.js`. -/
def countDiacritics (s : String) : Nat := (s.data.filter isDiacriticChar).length

/-- One entry of `DATA_SOURCES`. -/
structure Source where
  name : String
  url : String
  type : String
  category : String
deriving DecidableEq, Repr

/-- `DATA_SOURCES` from `scripts/extract-data.js`. -/
def DATA_SOURCES : List Source :=
  [⟨"Doubletten Kampioenschappen",
    "https://www.zwijntje.nl/vereniging/eregalerij/clubkampioenschappen/doubletten/",
    "championship", "doubletten"⟩,
   ⟨"Mix Kampioenschappen",
    "https://www.zwijntje.nl/vereniging/eregalerij/clubkampioenschappen/mix/",
    "championship", "mix"⟩,
   ⟨"Tête-à-tête Kampioenschappen",
    "https://www.zwijntje.nl/vereniging/eregalerij/clubkampioenschappen/tete-a-tete/",
    "championship", "tete-a-tete"⟩,
   ⟨"Tripletten Kampioenschappen",
    "https://www.zwijntje.nl/vereniging/eregalerij/clubkampioenschappen/tripletten/",
    "championship", "tripletten"⟩,
   ⟨"Doubletten Competities",
    "https://www.zwijntje.nl/vereniging/eregalerij/clubcompetities/doubletten/",
    "competition", "doubletten"⟩,
   ⟨"Tripletten Competities",
    "https://www.zwijntje.nl/vereniging/eregalerij/clubcompetities/tripletten/",
    "competition", "tripletten"⟩,
   ⟨"Zomercyclus",
    "https://www.zwijntje.nl/vereniging/eregalerij/clubcompetities/zomercyclus/",
    "competition", "zomercyclus"⟩]

/-- The year test `/^\d{4}$/.test(cell)`: exactly four ASCII digits ( `$`
without the `m` flag does not match before a trailing newline in JavaScript,
so the match is anchored to the whole string). The separate `!year` falsiness
check of the source is subsumed: the empty string fails the regex. -/
def isYearCell (s : String) : Bool :=
  s.data.length == 4 && s.data.all (fun c => decide (48 ≤ c.toNat) && decide (c.toNat ≤ 57))

/-- `parseInt(year)` on a string that already passed the 4-digit year regex. -/
def parseYear (s : String) : Nat :=
  s.data.foldl (fun n c => n * 10 + (c.toNat - 48)) 0

/-- One win record pushed by `processData`. -/
structure Result where
  year : Nat
  category : String
  type : String
  poule : String
  winners : List String
deriving DecidableEq, Repr

/-- The `zomercyclus` branch of `processData`: the loop
`for (i = 2; i += 2)` over (year, winner) pairs, modelled on the cell list
after the 2-cell header was dropped. A pair whose first cell is not a 4-digit
year is skipped; a winner cell that is empty or the en dash `–` is skipped;
an out-of-range winner access (odd tail) is `undefined`, hence falsy, hence
skipped. -/
def zomerLoop (source : Source) : List String → List Result
  | y :: w :: rest =>
    (if isYearCell y && w != "" && w != "–" then
      [⟨parseYear y, source.category, source.type, "A", [w]⟩]
    else []) ++ zomerLoop source rest
  | _ => []

/-- The `tete-a-tete` branch of `processData`: the loop `for (i = 3; i += 3)`
over (year, men, women) triples, modelled on the cell list after the 3-cell
header was dropped; each cell that is non-empty and not `–` pushes its own
Result with the plain source category. A 2-cell tail has `undefined` for the
women's cell; a 1-cell tail has `undefined` for both winner cells. -/
def teteLoop (source : Source) : List String → List Result
  | y :: m :: w :: rest =>
    (if isYearCell y then
      (if m != "" && m != "–" then
        [⟨parseYear y, source.category, source.type, "A", [m]⟩] else []) ++
      (if w != "" && w != "–" then
        [⟨parseYear y, source.category, source.type, "A", [w]⟩] else [])
    else []) ++ teteLoop source rest
  | [y, m] =>
    if isYearCell y && m != "" && m != "–" then
      [⟨parseYear y, source.category, source.type, "A", [m]⟩]
    else []
  | _ => []

/-- The variable-width branch of `processData`: at a 4-digit year cell, the
next cell is the Poule A cell (if it is truthy, not `–`, and not
whitespace-only, its extracted names — when non-empty — form one Result);
then the source's inner `while` skips cells up to the next 4-digit year cell.
Non-year cells at the loop head are skipped one at a time (`i++; continue`),
which makes the inner skip-`while` equivalent to simply resuming the outer
scan right after the Poule A cell — the outer scan skips the very same
non-year cells before acting again; the source-shaped equation with the
explicit skip is proved as `varLoop_cons_of_isYear` below. -/
def varLoop (source : Source) : List String → List Result
  | [] => []
  | y :: rest =>
    if isYearCell y then
      match rest with
      | [] => []
      | a :: rest2 =>
        (if a != "" && a != "–" && trimString a != "" then
          (let names := extractNames a
           if names.length > 0 then
             [⟨parseYear y, source.category, source.type, "A", names⟩]
           else [])
        else []) ++ varLoop source rest2
    else varLoop source rest

/-- `processData` from `scripts/extract-data.js`: dispatch on the source
category; the variable-width branch first skips to the first 4-digit year
cell (past the header). -/
def processData (source : Source) (cells : List String) : List Result :=
  if source.category = "zomercyclus" then zomerLoop source (cells.drop 2)
  else if source.category = "tete-a-tete" then teteLoop source (cells.drop 3)
  else varLoop source (cells.dropWhile (fun c => !(isYearCell c)))

/-- The category key `` `${result.type}_${result.category}` `` used by the
aggregator. -/
def categoryKey (r : Result) : String := r.type ++ "_" ++ r.category

/-- One aggregated player record. -/
structure Player where
  displayName : String
  wins : List (String × Nat)
  totalWins : Nat
deriving DecidableEq, Repr

/-- The grouping key of `buildPlayerStats`:
`normalizeName(applyNameMapping(name))`. -/
def playerKey (name : String) : String := normalizeName (applyNameMapping name)

/-- The `wins[categoryKey]` increment of `buildPlayerStats` on the
insertion-ordered association list modelling the `wins` object: create the
key at 0 if absent, then add 1. -/
def bumpWin (ck : String) : List (String × Nat) → List (String × Nat)
  | [] => [(ck, 1)]
  | e :: rest => if e.1 == ck then (e.1, e.2 + 1) :: rest else e :: bumpWin ck rest

/-- Mutation of the player stored under a key of the insertion-ordered
association list modelling the `Map`. -/
def updatePlayer (key : String) (f : Player → Player)
    (m : List (String × Player)) : List (String × Player) :=
  m.map (fun e => if e.1 == key then (e.1, f e.2) else e)

/-- The body of the inner `forEach` of `buildPlayerStats`, for one winner name
of one result: apply the name mapping, compute the normalized key; create the
accumulator if the key is unseen, otherwise prefer the display name with
strictly more diacritics; then increment the category win count and the
total. -/
def processWinner (ck : String) (name : String)
    (m : List (String × Player)) : List (String × Player) :=
  updatePlayer (playerKey name)
    (fun p => { p with wins := bumpWin ck p.wins, totalWins := p.totalWins + 1 })
    (match List.lookup (playerKey name) m with
     | none => m ++ [(playerKey name, ⟨applyNameMapping name, [], 0⟩)]
     | some player =>
       if countDiacritics (applyNameMapping name) > countDiacritics player.displayName then
         updatePlayer (playerKey name)
           (fun p => { p with displayName := applyNameMapping name }) m
       else m)

/-- The outer `forEach` body of `buildPlayerStats`: process every winner of
one result. -/
def processResult (m : List (String × Player)) (r : Result) : List (String × Player) :=
  r.winners.foldl (fun acc n => processWinner (categoryKey r) n acc) m

/-- The fully folded player map of `buildPlayerStats` (insertion-ordered, as a
JavaScript `Map`). -/
def buildPlayerMap (results : List Result) : List (String × Player) :=
  results.foldl processResult []

/-- Stable descending insertion by `totalWins`, modelling the stable
`Array.prototype.sort((a, b) => b.totalWins - a.totalWins)`. -/
def insertByTotalWins (p : Player) : List Player → List Player
  | [] => [p]
  | q :: qs => if q.totalWins ≤ p.totalWins then p :: q :: qs else q :: insertByTotalWins p qs

/-- Stable sort by total wins, descending. -/
def sortByTotalWinsDesc (l : List Player) : List Player := l.foldr insertByTotalWins []

/-- `buildPlayerStats` from `scripts/extract-data.js`: fold all results into
the player map, take the values in insertion order, sort by total wins
descending (stable). -/
def buildPlayerStats (results : List Result) : List Player :=
  sortByTotalWinsDesc ((buildPlayerMap results).map Prod.snd)

/-- One scripted network event for the fetcher model: a connection-level error
or an HTTP response with a status code and a full body. -/
inductive NetEvent where
  | connError : NetEvent
  | response (status : Nat) (body : String) : NetEvent
deriving DecidableEq, Repr

/-- The observable outcome of `fetchUrl`: the promise resolves with the body
or rejects with an error. -/
inductive FetchOutcome where
  | resolved (body : String) : FetchOutcome
  | rejected : FetchOutcome
deriving DecidableEq, Repr

/-- `shouldRetryStatus` from `fetchUrl`:
`statusCode === 429 || (statusCode >= 500 && statusCode < 600)`. -/
def shouldRetryStatus (s : Nat) : Bool :=
  s == 429 || (decide (500 ≤ s) && decide (s < 600))

/-- The `attempt` recursion of `fetchUrl`, driven by a scripted list of network
events (one per attempt). Returns the outcome together with the list of
backoff delays actually waited, or `none` if the script ran out of events
while another attempt was due. Status 200 resolves with the body; a retryable
status or connection error with retries remaining waits `currentDelay` and
recurses with `remainingRetries - 1` and `currentDelay * 2`; anything else
rejects. -/
def fetchSim : List NetEvent → Nat → Nat → Option (FetchOutcome × List Nat)
  | [], _, _ => none
  | NetEvent.connError :: rest, r, d =>
    if 0 < r then (fetchSim rest (r - 1) (d * 2)).map (fun p => (p.1, d :: p.2))
    else some (FetchOutcome.rejected, [])
  | NetEvent.response s b :: rest, r, d =>
    if s == 200 then some (FetchOutcome.resolved b, [])
    else if shouldRetryStatus s && decide (0 < r) then
      (fetchSim rest (r - 1) (d * 2)).map (fun p => (p.1, d :: p.2))
    else some (FetchOutcome.rejected, [])

/-- `fetchUrl` with its default parameters `retries = 3`, `delayMs = 500`. -/
def fetchUrl (events : List NetEvent) : Option (FetchOutcome × List Nat) :=
  fetchSim events 3 500

/-- The per-source try/catch body of `main`: a failed fetch/parse contributes
zero results, a successful one contributes `processData` of its cells. -/
def sourceResults (source : Source) (fetched : Except String (List String)) : List Result :=
  match fetched with
  | Except.error _ => []
  | Except.ok cells => processData source cells

/-- The aggregation pipeline of `main` over per-source fetch outcomes: collect
all results in source order (`allResults.push(...results)`), then build the
player statistics. -/
def runMain (inputs : List (Source × Except String (List String))) :
    List Result × List Player :=
  let allResults := inputs.foldl (fun acc p => acc ++ sourceResults p.1 p.2) []
  (allResults, buildPlayerStats allResults)

/-- `CATEGORY_MAP` from `src/scripts/main.js`: the category keys the
presentation layer knows how to display, with their column identifiers. -/
def CATEGORY_MAP : List (String × String) :=
  [("championship_doubletten", "champ-doubletten"),
   ("championship_mix", "champ-mix"),
   ("championship_tete-a-tete-heren", "champ-tete-heren"),
   ("championship_tete-a-tete-dames", "champ-tete-dames"),
   ("championship_tripletten", "champ-tripletten"),
   ("competition_doubletten", "comp-doubletten"),
   ("competition_tripletten", "comp-tripletten"),
   ("competition_zomercyclus", "comp-zomer")]

/-- Modelled from the spec: the claim "two raw winner name strings … differ
only in case, the listed accent families (e/a/i/o/u families, ç, ñ),
leading/trailing whitespace, or internal whitespace runs" is read as equality
after erasing exactly those features: erase case and the accent families
character by character, then erase leading/trailing whitespace and collapse
internal whitespace runs to a single space. -/
def specNormalizeName (s : String) : String :=
  String.mk (collapseWhitespace (trimChars ((s.data.map jsLowerChar).map foldAccentChar)))

/-! ### Helper lemmas -/

/-- Accent folding maps letters to letters: it never creates or destroys a
whitespace character. -/
theorem foldAccent_ws (c : Char) :
    isJsWhitespace (foldAccentChar c) = isJsWhitespace c := by
  unfold foldAccentChar
  split <;> rfl

/-- The whitespace predicate composed with accent folding is the whitespace
predicate. -/
theorem ws_comp_foldAccent :
    isJsWhitespace ∘ foldAccentChar = isJsWhitespace :=
  funext foldAccent_ws

/-- Trimming commutes with accent folding. -/
theorem trimChars_map_foldAccent (l : List Char) :
    trimChars (l.map foldAccentChar) = (trimChars l).map foldAccentChar := by
  unfold trimChars
  rw [List.dropWhile_map, ws_comp_foldAccent, ← List.map_reverse,
    List.dropWhile_map, ws_comp_foldAccent, ← List.map_reverse]

/-- The source's `normalizeName` (lower-case, trim, fold accents, collapse
whitespace) computes the spec's normal form (lower-case and fold accents
character by character, then trim and collapse whitespace). -/
theorem normalizeName_eq_specNormalizeName (s : String) :
    normalizeName s = specNormalizeName s := by
  unfold normalizeName specNormalizeName
  rw [trimChars_map_foldAccent]

/-- Updating a player in place never changes the number of map entries. -/
theorem length_updatePlayer (k : String) (f : Player → Player)
    (m : List (String × Player)) : (updatePlayer k f m).length = m.length := by
  simp [updatePlayer]

/-- Processing one winner keeps the entry count when the key is present. -/
theorem length_processWinner_found (ck name : String) (m : List (String × Player))
    (p : Player) (hl : List.lookup (playerKey name) m = some p) :
    (processWinner ck name m).length = m.length := by
  unfold processWinner
  rw [hl]
  split
  · rename_i heq
    simp at heq
  · rename_i player heq
    split <;> simp [length_updatePlayer]

/-- Processing one winner adds one entry when the key is new. -/
theorem length_processWinner_new (ck name : String) (m : List (String × Player))
    (hl : List.lookup (playerKey name) m = none) :
    (processWinner ck name m).length = m.length + 1 := by
  unfold processWinner
  rw [hl]
  simp [length_updatePlayer]

/-- Stable descending insertion adds one element. -/
theorem length_insertByTotalWins (p : Player) (l : List Player) :
    (insertByTotalWins p l).length = l.length + 1 := by
  induction l with
  | nil => rfl
  | cons q qs ih =>
    by_cases h : q.totalWins ≤ p.totalWins <;> simp [insertByTotalWins, h, ih]

/-- Sorting by total wins keeps the number of players. -/
theorem length_sortByTotalWinsDesc (l : List Player) :
    (sortByTotalWinsDesc l).length = l.length := by
  unfold sortByTotalWinsDesc
  induction l with
  | nil => rfl
  | cons q qs ih => simp [List.foldr_cons, length_insertByTotalWins, ih]

/-- Processing one winner into the empty map creates its player entry. -/
theorem processWinner_nil (ck name : String) :
    processWinner ck name [] =
      [(playerKey name, ⟨applyNameMapping name, [(ck, 1)], 1⟩)] := by
  unfold processWinner
  simp [List.lookup, updatePlayer, bumpWin]

/-- On a two-result input with one winner each, the aggregated player count is
one exactly when the two normalization keys agree. -/
theorem buildPlayerStats_pair_length (a b c1 t1 p1 c2 t2 p2 : String) (y1 y2 : Nat) :
    (buildPlayerStats [⟨y1, c1, t1, p1, [a]⟩, ⟨y2, c2, t2, p2, [b]⟩]).length =
      if playerKey a = playerKey b then 1 else 2 := by
  have hmap : buildPlayerMap [⟨y1, c1, t1, p1, [a]⟩, ⟨y2, c2, t2, p2, [b]⟩] =
      processWinner (t2 ++ "_" ++ c2) b
        [(playerKey a, ⟨applyNameMapping a, [(t1 ++ "_" ++ c1, 1)], 1⟩)] := by
    simp [buildPlayerMap, processResult, categoryKey, processWinner_nil]
  unfold buildPlayerStats
  rw [length_sortByTotalWinsDesc, List.length_map, hmap]
  by_cases hk : playerKey a = playerKey b
  · have hl : List.lookup (playerKey b)
        [(playerKey a, (⟨applyNameMapping a, [(t1 ++ "_" ++ c1, 1)], 1⟩ : Player))] =
        some ⟨applyNameMapping a, [(t1 ++ "_" ++ c1, 1)], 1⟩ := by
      simp [List.lookup, hk]
    rw [length_processWinner_found _ _ _ _ hl]
    simp [hk]
  · have hl : List.lookup (playerKey b)
        [(playerKey a, (⟨applyNameMapping a, [(t1 ++ "_" ++ c1, 1)], 1⟩ : Player))] =
        none := by
      have hba : (playerKey b == playerKey a) = false :=
        beq_eq_false_iff_ne.mpr (Ne.symm hk)
      simp [List.lookup, hba]
    rw [length_processWinner_new _ _ _ hl]
    simp [hk]

/-- C1: the normalization key identifies exactly the raw names that differ
only in case, the listed accent families, leading/trailing whitespace, or
internal whitespace runs — formalized as equality of the spec-side normal
form `specNormalizeName`, which erases precisely those features; the spec's
concrete foldings hold; and the aggregator credits two winner occurrences to
the same Player exactly when `normalizeName (applyNameMapping raw)` agrees:
a two-result sequence with one winner each yields one Player when the keys
agree and two Players otherwise. -/
theorem C1_player_identity_by_normalized_key :
    (∀ a b : String, normalizeName a = normalizeName b ↔
        specNormalizeName a = specNormalizeName b)
    ∧ (normalizeName "Cédric" = normalizeName "cedric"
        ∧ normalizeName "cedric" = normalizeName "CEDRIC  ")
    ∧ (∀ (a b c1 t1 p1 c2 t2 p2 : String) (y1 y2 : Nat),
        (buildPlayerStats [⟨y1, c1, t1, p1, [a]⟩, ⟨y2, c2, t2, p2, [b]⟩]).length =
          if playerKey a = playerKey b then 1 else 2) := by
  refine ⟨?_, ⟨by decide, by decide⟩, ?_⟩
  · intro a b
    rw [normalizeName_eq_specNormalizeName, normalizeName_eq_specNormalizeName]
  · intro a b c1 t1 p1 c2 t2 p2 y1 y2
    exact buildPlayerStats_pair_length a b c1 t1 p1 c2 t2 p2 y1 y2

/-- The per-player invariant of the aggregator: the total equals the summed
category counts, and every stored category count is positive. -/
def playerOK (p : Player) : Prop :=
  p.totalWins = (p.wins.map Prod.snd).sum ∧ ∀ x ∈ p.wins, 1 ≤ x.2

/-- Bumping a category adds exactly one to the summed win counts. -/
theorem winsSum_bumpWin (ck : String) (w : List (String × Nat)) :
    ((bumpWin ck w).map Prod.snd).sum = (w.map Prod.snd).sum + 1 := by
  induction w with
  | nil => rfl
  | cons e rest ih =>
    unfold bumpWin
    by_cases h : (e.1 == ck) = true
    · simp [h]
      all_goals omega
    · simp [h, ih]
      all_goals omega

/-- Bumping a category keeps every stored count positive. -/
theorem bumpWin_pos (ck : String) (w : List (String × Nat))
    (hw : ∀ e ∈ w, 1 ≤ e.2) : ∀ e ∈ bumpWin ck w, 1 ≤ e.2 := by
  induction w with
  | nil =>
    intro e he
    simp [bumpWin] at he
    all_goals simp [he]
  | cons f rest ih =>
    intro e he
    unfold bumpWin at he
    by_cases h : (f.1 == ck) = true
    · rw [if_pos h] at he
      rcases List.mem_cons.mp he with h1 | h1
      · have := hw f (List.mem_cons_self _ _)
        simp [h1]
      · exact hw e (List.mem_cons_of_mem _ h1)
    · rw [if_neg h] at he
      rcases List.mem_cons.mp he with h1 | h1
      · exact h1 ▸ hw f (List.mem_cons_self _ _)
      · exact ih (fun x hx => hw x (List.mem_cons_of_mem _ hx)) e h1

/-- An element of an in-place update comes from an element of the original
map, either unchanged or with the update applied to its player. -/
theorem mem_updatePlayer_cases {k : String} {f : Player → Player}
    {m : List (String × Player)} {e : String × Player}
    (he : e ∈ updatePlayer k f m) :
    ∃ e0, e0 ∈ m ∧ (e = e0 ∨ e = (e0.1, f e0.2)) := by
  unfold updatePlayer at he
  obtain ⟨e0, h0, hg⟩ := List.mem_map.mp he
  by_cases hk : (e0.1 == k) = true
  · exact ⟨e0, h0, Or.inr (by rw [← hg, if_pos hk])⟩
  · exact ⟨e0, h0, Or.inl (by rw [← hg, if_neg hk])⟩

/-- The increment step of the aggregator preserves the per-player invariant. -/
theorem playerOK_bump (ck : String) (p : Player) (hp : playerOK p) :
    playerOK ⟨p.displayName, bumpWin ck p.wins, p.totalWins + 1⟩ := by
  refine ⟨?_, bumpWin_pos ck p.wins hp.2⟩
  have h1 := hp.1
  simp [winsSum_bumpWin]
  omega

/-- Processing one winner preserves the invariant for every map entry. -/
theorem playerOK_processWinner (ck name : String) (m : List (String × Player))
    (hm : ∀ e ∈ m, playerOK e.2) :
    ∀ e ∈ processWinner ck name m, playerOK e.2 := by
  intro e he
  unfold processWinner at he
  cases hl : List.lookup (playerKey name) m with
  | none =>
    rw [hl] at he
    have he' : e ∈ updatePlayer (playerKey name)
        (fun p => { p with wins := bumpWin ck p.wins, totalWins := p.totalWins + 1 })
        (m ++ [(playerKey name, ⟨applyNameMapping name, [], 0⟩)]) := he
    obtain ⟨e0, h0, hor⟩ := mem_updatePlayer_cases he'
    have h00 : playerOK e0.2 := by
      rcases List.mem_append.mp h0 with h | h
      · exact hm e0 h
      · simp at h
        rw [h]
        exact ⟨rfl, by intro x hx; cases hx⟩
    rcases hor with h | h
    · rw [h]; exact h00
    · rw [h]; exact playerOK_bump ck e0.2 h00
  | some player =>
    rw [hl] at he
    have he' : e ∈ updatePlayer (playerKey name)
        (fun p => { p with wins := bumpWin ck p.wins, totalWins := p.totalWins + 1 })
        (if countDiacritics (applyNameMapping name) > countDiacritics player.displayName then
          updatePlayer (playerKey name)
            (fun p => { p with displayName := applyNameMapping name }) m
        else m) := he
    obtain ⟨e0, h0, hor⟩ := mem_updatePlayer_cases he'
    have h00 : playerOK e0.2 := by
      by_cases hd : countDiacritics (applyNameMapping name) > countDiacritics player.displayName
      · rw [if_pos hd] at h0
        obtain ⟨e1, h1, hor1⟩ := mem_updatePlayer_cases h0
        have h11 := hm e1 h1
        rcases hor1 with h | h
        · rw [h]; exact h11
        · rw [h]; exact h11
      · rw [if_neg hd] at h0
        exact hm e0 h0
    rcases hor with h | h
    · rw [h]; exact h00
    · rw [h]; exact playerOK_bump ck e0.2 h00

/-- Every entry of the fully folded player map satisfies the invariant. -/
theorem playerOK_buildPlayerMap (results : List Result) :
    ∀ e ∈ buildPlayerMap results, playerOK e.2 := by
  unfold buildPlayerMap
  suffices h : ∀ (rs : List Result) (m), (∀ e ∈ m, playerOK e.2) →
      ∀ e ∈ rs.foldl processResult m, playerOK e.2 by
    exact h results [] (by intro e he; cases he)
  intro rs
  induction rs with
  | nil =>
    intro m hm
    simpa using hm
  | cons r rest ih =>
    intro m hm
    simp only [List.foldl_cons]
    apply ih
    unfold processResult
    have hws : ∀ (ws : List String) (m0 : List (String × Player)),
        (∀ e ∈ m0, playerOK e.2) →
        ∀ e ∈ ws.foldl (fun acc n => processWinner (categoryKey r) n acc) m0,
          playerOK e.2 := by
      intro ws
      induction ws with
      | nil =>
        intro m0 hm0
        simpa using hm0
      | cons w wrest ihw =>
        intro m0 hm0
        simp only [List.foldl_cons]
        exact ihw _ (playerOK_processWinner _ _ _ hm0)
    exact hws r.winners m hm

/-- Membership in the stable descending insertion. -/
theorem mem_insertByTotalWins {q p : Player} {l : List Player} :
    q ∈ insertByTotalWins p l ↔ q = p ∨ q ∈ l := by
  induction l with
  | nil => simp [insertByTotalWins]
  | cons r rs ih =>
    unfold insertByTotalWins
    by_cases h : r.totalWins ≤ p.totalWins
    · simp [h]
    · simp [h, ih]
      all_goals tauto


/-- Sorting by total wins keeps exactly the same players. -/
theorem mem_sortByTotalWinsDesc {q : Player} {l : List Player} :
    q ∈ sortByTotalWinsDesc l ↔ q ∈ l := by
  unfold sortByTotalWinsDesc
  induction l with
  | nil => simp
  | cons r rs ih => simp [List.foldr_cons, mem_insertByTotalWins, ih]

/-- Every player produced by the aggregator satisfies the invariant. -/
theorem playerOK_buildPlayerStats (results : List Result) :
    ∀ p ∈ buildPlayerStats results, playerOK p := by
  intro p hp
  unfold buildPlayerStats at hp
  rw [mem_sortByTotalWinsDesc] at hp
  obtain ⟨e, he, hpe⟩ := List.mem_map.mp hp
  rw [← hpe]
  exact playerOK_buildPlayerMap results e he

/-- C2: after processing any single winner into any map whose entries satisfy
the invariant, every entry still has `totalWins` equal to the sum of its
per-category win counts with every stored count at least 1 (so the invariant
holds after each individual winner, not just at the end); and every Player
produced by the aggregator satisfies it. -/
theorem C2_totalWins_eq_sum_of_wins :
    (∀ (m : List (String × Player)) (ck name : String),
       (∀ e ∈ m, e.2.totalWins = (e.2.wins.map Prod.snd).sum ∧ ∀ x ∈ e.2.wins, 1 ≤ x.2) →
       ∀ e ∈ processWinner ck name m,
         e.2.totalWins = (e.2.wins.map Prod.snd).sum ∧ ∀ x ∈ e.2.wins, 1 ≤ x.2)
    ∧ (∀ (results : List Result), ∀ p ∈ buildPlayerStats results,
       p.totalWins = (p.wins.map Prod.snd).sum ∧ ∀ x ∈ p.wins, 1 ≤ x.2) :=
  ⟨fun m ck name hm => playerOK_processWinner ck name m hm,
   fun results => playerOK_buildPlayerStats results⟩

/-- An ASCII digit is not a JavaScript whitespace character. -/
theorem digit_not_ws {c : Char} (h1 : 48 ≤ c.toNat) (h2 : c.toNat ≤ 57) :
    isJsWhitespace c = false := by
  simp only [isJsWhitespace, Bool.or_eq_false_iff, Bool.and_eq_false_iff,
    beq_eq_false_iff_ne, ne_eq, decide_eq_false_iff_not, not_le]
  omega

/-- An ASCII digit is not a comma. -/
theorem digit_ne_comma {c : Char} (h1 : 48 ≤ c.toNat) (h2 : c.toNat ≤ 57) :
    ¬c = ',' := by
  intro h
  rw [h] at h1
  simp at h1

/-- Dropping while a predicate that holds nowhere drops nothing. -/
theorem dropWhile_eq_self_of_all {p : Char → Bool} {l : List Char}
    (h : ∀ c ∈ l, p c = false) : l.dropWhile p = l := by
  cases l with
  | nil => rfl
  | cons c t =>
    exact List.dropWhile_cons_of_neg (by simp [h c (List.mem_cons_self _ _)])

/-- Trimming a list without whitespace characters is the identity. -/
theorem trimChars_eq_self {l : List Char}
    (h : ∀ c ∈ l, isJsWhitespace c = false) : trimChars l = l := by
  unfold trimChars
  rw [dropWhile_eq_self_of_all h,
    dropWhile_eq_self_of_all (fun c hc => h c (List.mem_reverse.mp hc)),
    List.reverse_reverse]

/-- The head surviving a `dropWhile` falsifies the dropped predicate. -/
theorem dropWhile_head_false (p : Char → Bool) :
    ∀ {l : List Char} {c : Char} {t : List Char},
      l.dropWhile p = c :: t → p c = false := by
  intro l
  induction l with
  | nil => intro c t h; cases h
  | cons x xs ih =>
    intro c t h
    by_cases hx : p x = true
    · rw [List.dropWhile_cons_of_pos hx] at h
      exact ih h
    · rw [List.dropWhile_cons_of_neg hx] at h
      cases h
      simpa using hx

/-- A non-empty trimmed list contains a non-whitespace character. -/
theorem trimChars_has_solid {l : List Char} (h : trimChars l ≠ []) :
    ∃ c ∈ trimChars l, isJsWhitespace c = false := by
  unfold trimChars at *
  cases hc : (l.dropWhile isJsWhitespace).reverse.dropWhile isJsWhitespace with
  | nil =>
    exact absurd (by rw [hc]; rfl) h
  | cons c t =>
    exact ⟨c, by simp, dropWhile_head_false _ hc⟩

/-- A list that trims to nothing is whitespace throughout. -/
theorem all_ws_of_trimChars_eq_nil {l : List Char} (h : trimChars l = []) :
    ∀ c ∈ l, isJsWhitespace c = true := by
  unfold trimChars at h
  rw [List.reverse_eq_nil_iff] at h
  have h2 : ∀ c ∈ (l.dropWhile isJsWhitespace).reverse, isJsWhitespace c = true :=
    List.dropWhile_eq_nil_iff.mp h
  intro c hc
  rw [← List.takeWhile_append_dropWhile isJsWhitespace l] at hc
  rcases List.mem_append.mp hc with hm | hm
  · exact List.mem_takeWhile_imp hm
  · exact h2 c (List.mem_reverse.mpr hm)

/-- On a head that is neither a comma nor whitespace, the splitter keeps the
character in the current fragment. -/
theorem splitNameTokensAux_cons_solid (fuel : Nat) (c : Char) (rest : List Char)
    (hc : ¬c = ',') (hw : isJsWhitespace c = false) :
    splitNameTokensAux (fuel + 1) (c :: rest) =
      consHead c (splitNameTokensAux fuel rest) := by
  rw [splitNameTokensAux, if_neg hc, if_neg (by simp [hw])]

/-- A fragment without commas or whitespace is never split. -/
theorem splitNameTokensAux_plain :
    ∀ (fuel : Nat) (l : List Char), l.length ≤ fuel →
      (∀ c ∈ l, ¬c = ',' ∧ isJsWhitespace c = false) →
      splitNameTokensAux fuel l = [l] := by
  intro fuel
  induction fuel with
  | zero =>
    intro l hlen hplain
    rw [splitNameTokensAux]
  | succ f ih =>
    intro l hlen hplain
    cases l with
    | nil => rfl
    | cons c rest =>
      have hc := hplain c (List.mem_cons_self _ _)
      have hlen2 : rest.length ≤ f := by
        simp at hlen
        omega
      rw [splitNameTokensAux_cons_solid f c rest hc.1 hc.2,
        ih rest hlen2 (fun x hx => hplain x (List.mem_cons_of_mem _ hx))]
      rfl

/-- A 4-digit year cell passes through `extractNames` unsplit and untrimmed. -/
theorem extractNames_year {z : String} (hz : isYearCell z = true) :
    extractNames z = [z] := by
  simp only [isYearCell, Bool.and_eq_true, beq_iff_eq, List.all_eq_true,
    decide_eq_true_eq] at hz
  obtain ⟨hlen, hdig⟩ := hz
  have hdig2 : ∀ c ∈ z.data, 48 ≤ c.toNat ∧ c.toNat ≤ 57 := by
    intro c hc
    have := hdig c hc
    tauto
  have hplain : ∀ c ∈ z.data, ¬c = ',' ∧ isJsWhitespace c = false := fun c hc =>
    ⟨digit_ne_comma (hdig2 c hc).1 (hdig2 c hc).2,
     digit_not_ws (hdig2 c hc).1 (hdig2 c hc).2⟩
  have htrim : trimChars z.data = z.data :=
    trimChars_eq_self (fun c hc => (hplain c hc).2)
  have hmk : String.mk z.data = z := rfl
  have hne : z ≠ "" := by
    intro h
    rw [h] at hlen
    simp at hlen
  have hnd1 : z ≠ "–" := by
    intro h
    rw [h] at hlen
    simp at hlen
  have hnd2 : z ≠ "-" := by
    intro h
    rw [h] at hlen
    simp at hlen
  have htr : trimString z ≠ "" := by
    unfold trimString
    rw [htrim, hmk]
    exact hne
  unfold extractNames
  rw [if_neg (by simp [hne, hnd1, hnd2, htr])]
  unfold splitNameTokens
  rw [splitNameTokensAux_plain z.data.length z.data (Nat.le_refl _) hplain]
  have hcond : (z != "" && z != "–" && z != "-") = true := by
    simp [hne, hnd1, hnd2]
  simp [htrim, hmk, List.filter, hcond]

/-- Every name surviving `extractNames` is non-empty, not a dash, and does not
trim to the empty string. -/
theorem mem_extractNames {t w : String} (hw : w ∈ extractNames t) :
    w ≠ "" ∧ w ≠ "–" ∧ w ≠ "-" ∧ trimString w ≠ "" := by
  unfold extractNames at hw
  split at hw
  · cases hw
  · obtain ⟨hmem, hcond⟩ := List.mem_filter.mp hw
    simp only [Bool.and_eq_true, bne_iff_ne, ne_eq] at hcond
    obtain ⟨⟨h1, h2⟩, h3⟩ := hcond
    refine ⟨h1, h2, h3, ?_⟩
    obtain ⟨f, hf, hwf⟩ := List.mem_map.mp hmem
    intro h0
    have hdata : w.data = trimChars f := by
      rw [← hwf]
    have hne : trimChars f ≠ [] := by
      intro hnil
      apply h1
      rw [← hwf, hnil]
    obtain ⟨c, hc, hcw⟩ := trimChars_has_solid hne
    have hnil2 : trimChars (trimChars f) = [] := by
      have h4 : trimString w = String.mk (trimChars w.data) := rfl
      rw [h4, hdata] at h0
      have h5 := congrArg String.data h0
      simpa using h5
    have h6 := all_ws_of_trimChars_eq_nil hnil2 c hc
    exact absurd h6 (by simp [hcw])

/-- Witness for C2 at a concrete winner and a concrete result list. -/
theorem C2_totalWins_eq_sum_of_wins_witness :
    (∀ e ∈ processWinner "competition_zomercyclus" "Jan" ([] : List (String × Player)),
       e.2.totalWins = (e.2.wins.map Prod.snd).sum ∧ ∀ x ∈ e.2.wins, 1 ≤ x.2)
    ∧ (∀ p ∈ buildPlayerStats [⟨2020, "zomercyclus", "competition", "A", ["Jan Jansen"]⟩],
       p.totalWins = (p.wins.map Prod.snd).sum ∧ ∀ x ∈ p.wins, 1 ≤ x.2) :=
  ⟨C2_totalWins_eq_sum_of_wins.1 [] "competition_zomercyclus" "Jan" (by simp),
   C2_totalWins_eq_sum_of_wins.2 [⟨2020, "zomercyclus", "competition", "A", ["Jan Jansen"]⟩]⟩

/-- Cells that fail the `extractNames` guard extract no names. -/
theorem extractNames_guard_nil {a : String}
    (h : a = "" ∨ a = "–" ∨ trimString a = "") : extractNames a = [] := by
  unfold extractNames
  rcases h with h | h | h <;> simp [h]

/-- One unfolding step of the variable-width scan on two explicit cells. -/
theorem varLoop_cons_cons (source : Source) (y a : String) (rest : List String) :
    varLoop source (y :: a :: rest) =
      if isYearCell y = true then
        (if a != "" && a != "–" && trimString a != "" then
          (let names := extractNames a
           if names.length > 0 then
             [⟨parseYear y, source.category, source.type, "A", names⟩]
           else [])
        else []) ++ varLoop source rest
      else varLoop source (a :: rest) := rfl

/-- A non-year cell at the head of the scan is skipped. -/
theorem varLoop_cons_skip (source : Source) (y : String) (rest : List String)
    (hy : ¬isYearCell y = true) :
    varLoop source (y :: rest) = varLoop source rest := by
  rw [varLoop.eq_def]
  simp [hy]

/-- The scan ignores a leading block of non-year cells: dropping them first
changes nothing. -/
theorem varLoop_dropWhile (source : Source) :
    ∀ l : List String,
      varLoop source (l.dropWhile (fun c => !(isYearCell c))) = varLoop source l := by
  intro l
  induction l with
  | nil => rfl
  | cons y rest ih =>
    by_cases hy : isYearCell y = true
    · rw [List.dropWhile_cons_of_neg (by simp [hy])]
    · rw [List.dropWhile_cons_of_pos (by simp [hy]), ih, varLoop_cons_skip source y rest hy]

/-- The source-shaped row equation of the variable-width branch: at a 4-digit
year cell, the immediately following cell contributes its extracted names as
one Result (when any survive), and the scan then skips everything up to the
next 4-digit year cell. -/
theorem varLoop_cons_of_isYear (source : Source) (y a : String) (rest : List String)
    (hy : isYearCell y = true) :
    varLoop source (y :: a :: rest) =
      (if extractNames a = [] then []
       else [⟨parseYear y, source.category, source.type, "A", extractNames a⟩])
      ++ varLoop source (rest.dropWhile (fun c => !(isYearCell c))) := by
  rw [varLoop_dropWhile, varLoop_cons_cons, if_pos hy]
  congr 1
  by_cases h1 : a = ""
  · rw [extractNames_guard_nil (Or.inl h1)]
    simp [h1]
  · by_cases h2 : a = "–"
    · rw [extractNames_guard_nil (Or.inr (Or.inl h2))]
      simp [h2]
    · by_cases h3 : trimString a = ""
      · rw [extractNames_guard_nil (Or.inr (Or.inr h3))]
        simp [h1, h2, h3]
      · have hg : (a != "" && a != "–" && trimString a != "") = true := by
          simp [h1, h2, h3]
        rw [if_pos hg]
        by_cases h4 : extractNames a = []
        · simp [h4]
        · simp [h4, List.length_pos.mpr h4]

/-- Every Result of the variable-width scan carries the extracted names of
some cell, and that extraction is non-empty. -/
theorem varLoop_winners (source : Source) :
    ∀ (l : List String) (r : Result), r ∈ varLoop source l →
      ∃ a, r.winners = extractNames a ∧ extractNames a ≠ [] := by
  intro l
  induction l using varLoop.induct source with
  | case1 =>
    intro r hr
    cases hr
  | case2 y hy =>
    intro r hr
    rw [varLoop, if_pos hy] at hr
    cases hr
  | case3 y hy a rest2 ih =>
    intro r hr
    rw [varLoop_cons_cons, if_pos hy] at hr
    rcases List.mem_append.mp hr with hm | hm
    · by_cases hg : (a != "" && a != "–" && trimString a != "") = true
      · rw [if_pos hg] at hm
        by_cases h4 : extractNames a = []
        · rw [h4] at hm
          simp at hm
        · have hlen : 0 < (extractNames a).length := List.length_pos.mpr h4
          simp only [hlen, if_pos] at hm
          rcases List.mem_singleton.mp (by simpa using hm) with h
          exact ⟨a, by rw [h], h4⟩
      · rw [if_neg hg] at hm
        cases hm
    · exact ih r hm
  | case4 y rest hy ih =>
    intro r hr
    rw [varLoop_cons_skip source y rest hy] at hr
    exact ih r hr

/-- Every Result of the zomercyclus loop carries its raw winner cell whole,
and that cell is non-empty and not the en dash. -/
theorem zomerLoop_winners (source : Source) :
    ∀ (l : List String) (r : Result), r ∈ zomerLoop source l →
      ∃ w, r.winners = [w] ∧ w ≠ "" ∧ w ≠ "–" := by
  intro l
  induction l using zomerLoop.induct source with
  | case1 y w rest ih =>
    intro r hr
    rw [zomerLoop] at hr
    rcases List.mem_append.mp hr with hm | hm
    · by_cases hg : (isYearCell y && w != "" && w != "–") = true
      · rw [if_pos hg] at hm
        simp only [Bool.and_eq_true, bne_iff_ne, ne_eq] at hg
        rcases List.mem_singleton.mp hm with h
        exact ⟨w, by rw [h], hg.1.2, hg.2⟩
      · rw [if_neg hg] at hm
        cases hm
    · exact ih r hm
  | case2 t hne =>
    intro r hr
    rcases t with _ | ⟨y, _ | ⟨w, rest⟩⟩
    · cases hr
    · cases hr
    · exact absurd rfl (hne y w rest)

/-- Every Result of the tete-a-tete loop carries its raw winner cell whole,
and that cell is non-empty and not the en dash. -/
theorem teteLoop_winners (source : Source) :
    ∀ (l : List String) (r : Result), r ∈ teteLoop source l →
      ∃ w, r.winners = [w] ∧ w ≠ "" ∧ w ≠ "–" := by
  intro l
  induction l using teteLoop.induct source with
  | case1 y m w rest ih =>
    intro r hr
    rw [teteLoop] at hr
    rcases List.mem_append.mp hr with hm | hm
    · by_cases hy : isYearCell y = true
      · rw [if_pos hy] at hm
        rcases List.mem_append.mp hm with hm2 | hm2
        · by_cases hg : (m != "" && m != "–") = true
          · rw [if_pos hg] at hm2
            simp only [Bool.and_eq_true, bne_iff_ne, ne_eq] at hg
            rcases List.mem_singleton.mp hm2 with h
            exact ⟨m, by rw [h], hg.1, hg.2⟩
          · rw [if_neg hg] at hm2
            cases hm2
        · by_cases hg : (w != "" && w != "–") = true
          · rw [if_pos hg] at hm2
            simp only [Bool.and_eq_true, bne_iff_ne, ne_eq] at hg
            rcases List.mem_singleton.mp hm2 with h
            exact ⟨w, by rw [h], hg.1, hg.2⟩
          · rw [if_neg hg] at hm2
            cases hm2
      · rw [if_neg hy] at hm
        cases hm
    · exact ih r hm
  | case2 y m hg =>
    intro r hr
    rw [teteLoop, if_pos hg] at hr
    simp only [Bool.and_eq_true, bne_iff_ne, ne_eq] at hg
    rcases List.mem_singleton.mp hr with h
    exact ⟨m, by rw [h], hg.1.2, hg.2⟩
  | case3 y m hg =>
    intro r hr
    rw [teteLoop, if_neg hg] at hr
    cases hr
  | case4 t hne1 hne2 =>
    intro r hr
    rcases t with _ | ⟨y, _ | ⟨m, _ | ⟨w, rest⟩⟩⟩
    · cases hr
    · cases hr
    · exact absurd rfl (hne2 y m)
    · exact absurd rfl (hne1 y m w rest)

/-- `processData` dispatch: the zomercyclus branch. -/
theorem processData_zomer {source : Source} (h : source.category = "zomercyclus")
    (cells : List String) :
    processData source cells = zomerLoop source (cells.drop 2) := by
  simp [processData, h]

/-- `processData` dispatch: the tete-a-tete branch. -/
theorem processData_tete {source : Source} (h : source.category = "tete-a-tete")
    (cells : List String) :
    processData source cells = teteLoop source (cells.drop 3) := by
  simp [processData, h]

/-- `processData` dispatch: the variable-width branch. -/
theorem processData_var {source : Source} (h1 : source.category ≠ "zomercyclus")
    (h2 : source.category ≠ "tete-a-tete") (cells : List String) :
    processData source cells =
      varLoop source (cells.dropWhile (fun c => !(isYearCell c))) := by
  simp [processData, h1, h2]

/-- C3 (amended): every produced Result has a non-empty winners list whose
entries are non-empty and never the en dash `–`; in the variable-width branch
the entries are additionally never the ASCII hyphen `-` nor whitespace-only.
(In the zomercyclus and tete-a-tete branches only `""` and `–` are filtered:
an ASCII `-` or whitespace-only winner cell does produce a Result, see the
counterexample.) -/
theorem C3_placeholder_filtering_amended :
    ∀ (source : Source) (cells : List String) (r : Result),
      r ∈ processData source cells →
      r.winners ≠ [] ∧ ∀ w ∈ r.winners,
        w ≠ "" ∧ w ≠ "–" ∧
        (source.category ≠ "zomercyclus" → source.category ≠ "tete-a-tete" →
          w ≠ "-" ∧ trimString w ≠ "") := by
  intro source cells r hr
  by_cases hz : source.category = "zomercyclus"
  · rw [processData_zomer hz] at hr
    obtain ⟨w, hw, h1, h2⟩ := zomerLoop_winners source _ r hr
    refine ⟨by rw [hw]; simp, ?_⟩
    intro x hx
    rw [hw] at hx
    rcases List.mem_singleton.mp hx with h
    subst h
    exact ⟨h1, h2, fun hcz => absurd hz hcz⟩
  · by_cases ht : source.category = "tete-a-tete"
    · rw [processData_tete ht] at hr
      obtain ⟨w, hw, h1, h2⟩ := teteLoop_winners source _ r hr
      refine ⟨by rw [hw]; simp, ?_⟩
      intro x hx
      rw [hw] at hx
      rcases List.mem_singleton.mp hx with h
      subst h
      exact ⟨h1, h2, fun _ hct => absurd ht hct⟩
    · rw [processData_var hz ht] at hr
      obtain ⟨a, hwa, hne⟩ := varLoop_winners source _ r hr
      refine ⟨by rw [hwa]; exact hne, ?_⟩
      intro x hx
      rw [hwa] at hx
      obtain ⟨e1, e2, e3, e4⟩ := mem_extractNames hx
      exact ⟨e1, e2, fun _ _ => ⟨e3, e4⟩⟩

/-- C3 counterexample: in the zomercyclus branch an ASCII hyphen winner cell
produces a Result crediting the raw `-` string, contradicting the claim that
`-` cells never produce a Result or a winner entry. -/
theorem C3_placeholder_filtering_cex :
    processData ⟨"Zomercyclus",
        "https://www.zwijntje.nl/vereniging/eregalerij/clubcompetities/zomercyclus/",
        "competition", "zomercyclus"⟩ ["Jaar", "Naam", "2020", "-"] =
      [⟨2020, "zomercyclus", "competition", "A", ["-"]⟩]
    ∧ ¬(∀ r ∈ processData ⟨"Zomercyclus",
        "https://www.zwijntje.nl/vereniging/eregalerij/clubcompetities/zomercyclus/",
        "competition", "zomercyclus"⟩ ["Jaar", "Naam", "2020", "-"],
        ∀ w ∈ r.winners, w ≠ "-") :=
  ⟨by decide, by decide⟩

/-- Witness for the amended C3 at a concrete zomercyclus input. -/
theorem C3_placeholder_filtering_amended_witness :
    ((⟨2020, "zomercyclus", "competition", "A", ["Jan"]⟩ : Result) ∈
      processData ⟨"Zomercyclus", "u", "competition", "zomercyclus"⟩
        ["Jaar", "Naam", "2020", "Jan"])
    ∧ ((⟨2020, "zomercyclus", "competition", "A", ["Jan"]⟩ : Result).winners ≠ [] ∧
       ∀ w ∈ (⟨2020, "zomercyclus", "competition", "A", ["Jan"]⟩ : Result).winners,
         w ≠ "" ∧ w ≠ "–" ∧
         ((⟨"Zomercyclus", "u", "competition", "zomercyclus"⟩ : Source).category ≠ "zomercyclus" →
          (⟨"Zomercyclus", "u", "competition", "zomercyclus"⟩ : Source).category ≠ "tete-a-tete" →
          w ≠ "-" ∧ trimString w ≠ "")) :=
  ⟨by decide,
   C3_placeholder_filtering_amended ⟨"Zomercyclus", "u", "competition", "zomercyclus"⟩
     ["Jaar", "Naam", "2020", "Jan"] _ (by decide)⟩

/-- C4: the tete-a-tete branch does give every non-empty men's and women's
winner cell its own Result, but the recorded category is the bare
`tete-a-tete` without the `-heren`/`-dames` gender suffix, so the emitted
category key `championship_tete-a-tete` is absent from the presentation
layer's `CATEGORY_MAP`, while the suffixed keys the claim (and the display
table) expect are never produced. -/
theorem C4_tete_category_key_mismatch :
    processData ⟨"Tête-à-tête Kampioenschappen",
        "https://www.zwijntje.nl/vereniging/eregalerij/clubkampioenschappen/tete-a-tete/",
        "championship", "tete-a-tete"⟩ ["Jaar", "Heren", "Dames", "2020", "Jan", "Truus"] =
      [⟨2020, "tete-a-tete", "championship", "A", ["Jan"]⟩,
       ⟨2020, "tete-a-tete", "championship", "A", ["Truus"]⟩]
    ∧ (∀ r ∈ processData ⟨"Tête-à-tête Kampioenschappen",
        "https://www.zwijntje.nl/vereniging/eregalerij/clubkampioenschappen/tete-a-tete/",
        "championship", "tete-a-tete"⟩ ["Jaar", "Heren", "Dames", "2020", "Jan", "Truus"],
        categoryKey r = "championship_tete-a-tete" ∧
        List.lookup (categoryKey r) CATEGORY_MAP = none)
    ∧ List.lookup "championship_tete-a-tete-heren" CATEGORY_MAP = some "champ-tete-heren"
    ∧ List.lookup "championship_tete-a-tete-dames" CATEGORY_MAP = some "champ-tete-dames" :=
  ⟨by decide, by decide, by decide, by decide⟩

/-- C5: in the variable-width interpreter only the cell immediately after a
4-digit year token contributes winners; all following cells up to the next
year token are discarded, and the spec's concrete example row yields exactly
its two Results. -/
theorem C5_variable_width_row_interpretation :
    (∀ (source : Source) (y a y2 : String) (junk rest : List String),
       source.category ≠ "zomercyclus" → source.category ≠ "tete-a-tete" →
       isYearCell y = true → (∀ c ∈ junk, isYearCell c = false) →
       isYearCell y2 = true →
       processData source (y :: a :: (junk ++ y2 :: rest)) =
         (if extractNames a = [] then []
          else [⟨parseYear y, source.category, source.type, "A", extractNames a⟩])
         ++ processData source (y2 :: rest))
    ∧ processData ⟨"Doubletten Competities",
        "https://www.zwijntje.nl/vereniging/eregalerij/clubcompetities/doubletten/",
        "competition", "doubletten"⟩
        ["Jaar", "A", "B", "2019", "Piet, Klaas", "Jan", "2020", "Marie", "Els", "Tom"] =
        [⟨2019, "doubletten", "competition", "A", ["Piet", "Klaas"]⟩,
         ⟨2020, "doubletten", "competition", "A", ["Marie"]⟩] := by
  constructor
  · intro source y a y2 junk rest hz ht hy hjunk hy2
    rw [processData_var hz ht, processData_var hz ht,
      List.dropWhile_cons_of_neg (by simp [hy]),
      varLoop_cons_of_isYear source y a _ hy]
    congr 1
    rw [List.dropWhile_append_of_pos (by intro c hc; simp [hjunk c hc])]
  · decide

/-- Witness for C5 at a concrete discarded block. -/
theorem C5_variable_width_row_interpretation_witness :
    processData ⟨"D", "u", "competition", "doubletten"⟩
        ("2019" :: "Piet" :: (["PouleB", "PouleC"] ++ "2020" :: ["Marie"])) =
      (if extractNames "Piet" = [] then []
       else [⟨parseYear "2019", "doubletten", "competition", "A", extractNames "Piet"⟩])
      ++ processData ⟨"D", "u", "competition", "doubletten"⟩ ("2020" :: ["Marie"]) :=
  C5_variable_width_row_interpretation.1 ⟨"D", "u", "competition", "doubletten"⟩
    "2019" "Piet" "2020" ["PouleB", "PouleC"] ["Marie"]
    (by decide) (by decide) (by decide) (by decide) (by decide)

/-- C6 (amended): splitting on comma / the word `en`, trimming, and dropping
empty fragments happens through `extractNames` in the variable-width branch
only, where every surviving name is its own winner entry; the zomercyclus and
tete-a-tete branches take each winner cell whole as a single winner entry,
without splitting. -/
theorem C6_multi_winner_split_amended :
    (∀ (source : Source) (y a : String) (rest : List String),
       source.category ≠ "zomercyclus" → source.category ≠ "tete-a-tete" →
       isYearCell y = true →
       processData source (y :: a :: rest) =
         (if extractNames a = [] then []
          else [⟨parseYear y, source.category, source.type, "A", extractNames a⟩])
         ++ varLoop source (rest.dropWhile (fun c => !(isYearCell c))))
    ∧ extractNames "Piet, Klaas en Jan" = ["Piet", "Klaas", "Jan"]
    ∧ extractNames " Piet ,, Klaas " = ["Piet", "Klaas"]
    ∧ extractNames "Piet en Klaas" = ["Piet", "Klaas"]
    ∧ (∀ (source : Source) (h1c h2c y w : String) (rest : List String),
       source.category = "zomercyclus" → isYearCell y = true → w ≠ "" → w ≠ "–" →
       processData source (h1c :: h2c :: y :: w :: rest) =
         ⟨parseYear y, source.category, source.type, "A", [w]⟩ :: zomerLoop source rest)
    ∧ (∀ (source : Source) (h1c h2c h3c y m w : String) (rest : List String),
       source.category = "tete-a-tete" → isYearCell y = true →
       m ≠ "" → m ≠ "–" → w ≠ "" → w ≠ "–" →
       processData source (h1c :: h2c :: h3c :: y :: m :: w :: rest) =
         ⟨parseYear y, source.category, source.type, "A", [m]⟩ ::
         ⟨parseYear y, source.category, source.type, "A", [w]⟩ ::
         teteLoop source rest) := by
  refine ⟨?_, by decide, by decide, by decide, ?_, ?_⟩
  · intro source y a rest hz ht hy
    rw [processData_var hz ht, List.dropWhile_cons_of_neg (by simp [hy]),
      varLoop_cons_of_isYear source y a rest hy]
  · intro source h1c h2c y w rest hz hy hw1 hw2
    rw [processData_zomer hz]
    have hdrop : (h1c :: h2c :: y :: w :: rest).drop 2 = y :: w :: rest := rfl
    rw [hdrop, zomerLoop]
    have hg : (isYearCell y && w != "" && w != "–") = true := by
      simp [hy, hw1, hw2]
    rw [if_pos hg]
    rfl
  · intro source h1c h2c h3c y m w rest ht hy hm1 hm2 hw1 hw2
    rw [processData_tete ht]
    have hdrop : (h1c :: h2c :: h3c :: y :: m :: w :: rest).drop 3 = y :: m :: w :: rest := rfl
    rw [hdrop, teteLoop, if_pos hy]
    have hgm : (m != "" && m != "–") = true := by simp [hm1, hm2]
    have hgw : (w != "" && w != "–") = true := by simp [hw1, hw2]
    rw [if_pos hgm, if_pos hgw]
    rfl

/-- C6 counterexample: a zomercyclus winner cell containing a comma is not
split — the whole cell becomes a single winner entry, although
`extractNames` would have split it into two names. -/
theorem C6_multi_winner_split_cex :
    processData ⟨"Zomercyclus",
        "https://www.zwijntje.nl/vereniging/eregalerij/clubcompetities/zomercyclus/",
        "competition", "zomercyclus"⟩ ["Jaar", "Naam", "2020", "Piet, Klaas"] =
      [⟨2020, "zomercyclus", "competition", "A", ["Piet, Klaas"]⟩]
    ∧ extractNames "Piet, Klaas" = ["Piet", "Klaas"]
    ∧ (["Piet, Klaas"] : List String) ≠ ["Piet", "Klaas"] :=
  ⟨by decide, by decide, by decide⟩

/-- Witness for the amended C6 at concrete inputs. -/
theorem C6_multi_winner_split_amended_witness :
    processData ⟨"D", "u", "competition", "doubletten"⟩ ["2019", "Piet, Klaas"] =
      (if extractNames "Piet, Klaas" = [] then []
       else [⟨parseYear "2019", "doubletten", "competition", "A", extractNames "Piet, Klaas"⟩])
      ++ varLoop ⟨"D", "u", "competition", "doubletten"⟩
           (([] : List String).dropWhile (fun c => !(isYearCell c)))
    ∧ processData ⟨"Z", "u", "competition", "zomercyclus"⟩
        ["Jaar", "Naam", "2020", "Piet, Klaas"] =
      ⟨parseYear "2020", "zomercyclus", "competition", "A", ["Piet, Klaas"]⟩ ::
        zomerLoop ⟨"Z", "u", "competition", "zomercyclus"⟩ [] :=
  ⟨C6_multi_winner_split_amended.1 ⟨"D", "u", "competition", "doubletten"⟩
     "2019" "Piet, Klaas" [] (by decide) (by decide) (by decide),
   C6_multi_winner_split_amended.2.2.2.2.1 ⟨"Z", "u", "competition", "zomercyclus"⟩
     "Jaar" "Naam" "2020" "Piet, Klaas" [] (by decide) (by decide) (by decide) (by decide)⟩

/-- C10: in the variable-width interpreter a 4-digit token in the cell right
after a recognized year token is consumed as the Poule A winner cell — its
Result's winners list is exactly that 4-digit string — and year-boundary
scanning resumes only from the following cell onward. -/
theorem C10_year_token_as_poule_a_winner :
    ∀ (source : Source) (y z : String) (rest : List String),
      source.category ≠ "zomercyclus" → source.category ≠ "tete-a-tete" →
      isYearCell y = true → isYearCell z = true →
      processData source (y :: z :: rest) =
        ⟨parseYear y, source.category, source.type, "A", [z]⟩
          :: processData source rest := by
  intro source y z rest hz ht hy hyz
  rw [processData_var hz ht, processData_var hz ht,
    List.dropWhile_cons_of_neg (by simp [hy]),
    varLoop_cons_of_isYear source y z rest hy, extractNames_year hyz]
  simp

/-- Witness for C10: the year 2020 in the cell after year 2019 is credited as
the Poule A "winner" of 2019. -/
theorem C10_year_token_as_poule_a_winner_witness :
    processData ⟨"D", "u", "competition", "doubletten"⟩ ["2019", "2020", "X"] =
      ⟨parseYear "2019", "doubletten", "competition", "A", ["2020"]⟩
        :: processData ⟨"D", "u", "competition", "doubletten"⟩ ["X"] :=
  C10_year_token_as_poule_a_winner ⟨"D", "u", "competition", "doubletten"⟩
    "2019" "2020" ["X"] (by decide) (by decide) (by decide) (by decide)

/-- Processing a winner whose key is stored and whose canonical spelling has
no more diacritics keeps the stored display name and bumps the counters. -/
theorem processWinner_single_keep (ck name : String) (k : String) (p : Player)
    (hk : playerKey name = k)
    (hd : countDiacritics (applyNameMapping name) ≤ countDiacritics p.displayName) :
    processWinner ck name [(k, p)] =
      [(k, ⟨p.displayName, bumpWin ck p.wins, p.totalWins + 1⟩)] := by
  subst hk
  unfold processWinner
  have hl : List.lookup (playerKey name) [(playerKey name, p)] = some p := by
    simp [List.lookup]
  simp only [hl]
  rw [if_neg (Nat.not_lt.mpr hd)]
  simp [updatePlayer]

/-- Processing a winner whose key is stored and whose canonical spelling has
strictly more diacritics replaces the stored display name. -/
theorem processWinner_single_improve (ck name : String) (k : String) (p : Player)
    (hk : playerKey name = k)
    (hd : countDiacritics p.displayName < countDiacritics (applyNameMapping name)) :
    processWinner ck name [(k, p)] =
      [(k, ⟨applyNameMapping name, bumpWin ck p.wins, p.totalWins + 1⟩)] := by
  subst hk
  unfold processWinner
  have hl : List.lookup (playerKey name) [(playerKey name, p)] = some p := by
    simp [List.lookup]
  simp only [hl]
  rw [if_pos hd]
  simp [updatePlayer]

/-- C7: for two Results with single winners on the same normalization key
where one canonical spelling has strictly more diacritics, the aggregated
Player's display name is the spelling with more diacritics in either
processing order. -/
theorem C7_diacritic_preference_order_independent :
    ∀ (a b : String) (r1 r2 : Result),
      r1.winners = [a] → r2.winners = [b] →
      playerKey a = playerKey b →
      countDiacritics (applyNameMapping b) < countDiacritics (applyNameMapping a) →
      (buildPlayerStats [r1, r2]).map Player.displayName = [applyNameMapping a] ∧
      (buildPlayerStats [r2, r1]).map Player.displayName = [applyNameMapping a] := by
  intro a b r1 r2 h1 h2 hk hd
  have hstep1 : buildPlayerMap [r1, r2] =
      processWinner (categoryKey r2) b (processWinner (categoryKey r1) a []) := by
    simp [buildPlayerMap, processResult, h1, h2]
  have hstep2 : buildPlayerMap [r2, r1] =
      processWinner (categoryKey r1) a (processWinner (categoryKey r2) b []) := by
    simp [buildPlayerMap, processResult, h1, h2]
  constructor
  · unfold buildPlayerStats
    rw [hstep1, processWinner_nil (categoryKey r1) a,
      processWinner_single_keep (categoryKey r2) b (playerKey a)
        ⟨applyNameMapping a, [(categoryKey r1, 1)], 1⟩ hk.symm (Nat.le_of_lt hd)]
    simp [sortByTotalWinsDesc, insertByTotalWins]
  · unfold buildPlayerStats
    rw [hstep2, processWinner_nil (categoryKey r2) b,
      processWinner_single_improve (categoryKey r1) a (playerKey b)
        ⟨applyNameMapping b, [(categoryKey r2, 1)], 1⟩ hk hd]
    simp [sortByTotalWinsDesc, insertByTotalWins]

/-- Witness for C7 with the spec's spellings in both orders. -/
theorem C7_diacritic_preference_order_independent_witness :
    (buildPlayerStats [⟨2019, "doubletten", "championship", "A", ["Cédric"]⟩,
        ⟨2020, "doubletten", "championship", "A", ["Cedric"]⟩]).map Player.displayName =
      ["Cédric"]
    ∧ (buildPlayerStats [⟨2020, "doubletten", "championship", "A", ["Cedric"]⟩,
        ⟨2019, "doubletten", "championship", "A", ["Cédric"]⟩]).map Player.displayName =
      ["Cédric"] := by
  have h := C7_diacritic_preference_order_independent "Cédric" "Cedric"
    ⟨2019, "doubletten", "championship", "A", ["Cédric"]⟩
    ⟨2020, "doubletten", "championship", "A", ["Cedric"]⟩
    rfl rfl (by decide) (by decide)
  exact ⟨h.1.trans (by decide), h.2.trans (by decide)⟩

/-- One response step of the retry loop, phrased with the retryable status
set written out: status 200 resolves with the body, a 429 or 5xx status with
retries remaining waits the current delay and retries with the delay doubled,
anything else rejects. -/
theorem fetchSim_response (s : Nat) (b : String) (rest : List NetEvent) (r d : Nat) :
    fetchSim (NetEvent.response s b :: rest) r d =
      if s = 200 then some (FetchOutcome.resolved b, [])
      else if (s = 429 ∨ (500 ≤ s ∧ s ≤ 599)) ∧ 0 < r then
        (fetchSim rest (r - 1) (d * 2)).map (fun p => (p.1, d :: p.2))
      else some (FetchOutcome.rejected, []) := by
  rw [fetchSim]
  simp only [beq_iff_eq, shouldRetryStatus, Bool.and_eq_true, Bool.or_eq_true,
    decide_eq_true_eq]
  split_ifs <;> first | rfl | omega

/-- One connection-error step of the retry loop. -/
theorem fetchSim_connError (rest : List NetEvent) (r d : Nat) :
    fetchSim (NetEvent.connError :: rest) r d =
      if 0 < r then (fetchSim rest (r - 1) (d * 2)).map (fun p => (p.1, d :: p.2))
      else some (FetchOutcome.rejected, []) := by
  rw [fetchSim]

/-- The retry loop settles within `retries + 1` scripted attempts. -/
theorem fetchSim_isSome :
    ∀ (events : List NetEvent) (r d : Nat), r < events.length →
      (fetchSim events r d).isSome = true := by
  intro events
  induction events with
  | nil =>
    intro r d h
    simp at h
  | cons e rest ih =>
    intro r d h
    cases e with
    | connError =>
      rw [fetchSim_connError]
      by_cases hr : 0 < r
      · rw [if_pos hr]
        have h2 : r - 1 < rest.length := by
          rw [List.length_cons] at h
          omega
        simp only [Option.isSome_map']
        exact ih (r - 1) (d * 2) h2
      · rw [if_neg hr]
        rfl
    | response s b =>
      rw [fetchSim_response]
      by_cases h200 : s = 200
      · rw [if_pos h200]
        rfl
      · rw [if_neg h200]
        by_cases hrt : (s = 429 ∨ (500 ≤ s ∧ s ≤ 599)) ∧ 0 < r
        · rw [if_pos hrt]
          have h2 : r - 1 < rest.length := by
            rw [List.length_cons] at h
            omega
          simp only [Option.isSome_map']
          exact ih (r - 1) (d * 2) h2
        · rw [if_neg hrt]
          rfl

/-- C8 (amended): the fetcher retries exactly on a connection-level error or
a status in {429} ∪ [500,599] (with retries remaining), waiting the current
delay and doubling it for the next retry; it uses at most 3 retries (any
script of 4 or more attempts settles), resolves with the full body on 200,
and rejects on a non-retryable status or once retries are exhausted; delays
are 500, 1000, 2000. -/
theorem C8_retry_policy_amended :
    (∀ (s : Nat) (b : String) (rest : List NetEvent) (r d : Nat),
       fetchSim (NetEvent.response s b :: rest) r d =
         if s = 200 then some (FetchOutcome.resolved b, [])
         else if (s = 429 ∨ (500 ≤ s ∧ s ≤ 599)) ∧ 0 < r then
           (fetchSim rest (r - 1) (d * 2)).map (fun p => (p.1, d :: p.2))
         else some (FetchOutcome.rejected, []))
    ∧ (∀ (rest : List NetEvent) (r d : Nat),
       fetchSim (NetEvent.connError :: rest) r d =
         if 0 < r then (fetchSim rest (r - 1) (d * 2)).map (fun p => (p.1, d :: p.2))
         else some (FetchOutcome.rejected, []))
    ∧ (∀ (events : List NetEvent), 3 < events.length → (fetchUrl events).isSome = true)
    ∧ fetchUrl [NetEvent.response 500 "x", NetEvent.connError,
        NetEvent.response 503 "y", NetEvent.response 200 "ok"] =
      some (FetchOutcome.resolved "ok", [500, 1000, 2000])
    ∧ fetchUrl [NetEvent.response 500 "a", NetEvent.response 502 "b",
        NetEvent.response 503 "c", NetEvent.response 504 "d"] =
      some (FetchOutcome.rejected, [500, 1000, 2000])
    ∧ fetchUrl [NetEvent.response 404 ""] = some (FetchOutcome.rejected, [])
    ∧ fetchUrl [NetEvent.response 200 "body"] = some (FetchOutcome.resolved "body", []) :=
  ⟨fetchSim_response, fetchSim_connError,
   fun events h => fetchSim_isSome events 3 500 h,
   by decide, by decide, by decide, by decide⟩

/-- C8 counterexample: status 599 is retried by the code (the first scripted
attempt is followed by a 500ms wait and a second attempt that resolves),
although 599 is outside the claim's retryable set {429} ∪ [500,599). -/
theorem C8_retry_policy_cex :
    fetchUrl [NetEvent.response 599 "", NetEvent.response 200 "ok"] =
      some (FetchOutcome.resolved "ok", [500])
    ∧ ¬(599 = 429 ∨ (500 ≤ 599 ∧ 599 < 599)) :=
  ⟨by decide, by decide⟩

/-- Witness for the amended C8 on a 4-attempt script. -/
theorem C8_retry_policy_amended_witness :
    3 < ([NetEvent.connError, NetEvent.connError, NetEvent.connError,
        NetEvent.connError] : List NetEvent).length
    ∧ (fetchUrl [NetEvent.connError, NetEvent.connError, NetEvent.connError,
        NetEvent.connError]).isSome = true :=
  ⟨by decide,
   C8_retry_policy_amended.2.2.1 [NetEvent.connError, NetEvent.connError,
     NetEvent.connError, NetEvent.connError] (by decide)⟩

/-- An empty cell sequence yields no Results in every branch. -/
theorem processData_nil (source : Source) : processData source [] = [] := by
  unfold processData
  split_ifs <;> rfl

/-- Folding result accumulation is concatenation of the per-source results. -/
theorem foldl_append_join :
    ∀ (l : List (Source × Except String (List String))) (acc : List Result),
      l.foldl (fun acc p => acc ++ sourceResults p.1 p.2) acc =
        acc ++ (l.map (fun p => sourceResults p.1 p.2)).flatten := by
  intro l
  induction l with
  | nil =>
    intro acc
    simp
  | cons x xs ih =>
    intro acc
    simp [List.foldl_cons, ih]

/-- C9: a source whose fetch/parse fails contributes zero Results, and the
whole run (collected Results and aggregated Players) is exactly what it would
be had that source returned an empty cell table. -/
theorem C9_per_source_failure_isolation :
    ∀ (pre post : List (Source × Except String (List String)))
      (source : Source) (e : String),
      runMain (pre ++ (source, Except.error e) :: post) =
        runMain (pre ++ (source, Except.ok []) :: post) := by
  intro pre post source e
  have hsr : sourceResults source (Except.error e) = sourceResults source (Except.ok []) := by
    simp [sourceResults, processData_nil]
  have hall :
      (pre ++ (source, Except.error e) :: post).foldl
          (fun acc p => acc ++ sourceResults p.1 p.2) [] =
        (pre ++ (source, Except.ok []) :: post).foldl
          (fun acc p => acc ++ sourceResults p.1 p.2) [] := by
    rw [foldl_append_join, foldl_append_join]
    simp [hsr]
  simp [runMain, hall]

end ZwijntjeHOF
